import Mathlib

/-
Verification of the create-path core of the universal-go-service boilerplate.

The development shallowly embeds the Go source of the repository:
  internal/usecase/item/item.go            (itemUseCase: Create, BulkCreate, Get, Delete, GetWithPagination)
  internal/usecase/item/dto/...            (CreateItemRequest, BulkCreateRequest, PaginationRequest)
  internal/usecase/helpers (TransactionHelper.AtomicCreateItem / WithTransaction)
  internal/repository/item/item.go         (itemRepository: CreateWithTx, GetByNameForUpdate, GetWithPagination, ...)
  internal/domain/validation/item_validator.go (ItemValidator)
  pkg/errors (ErrorHandler.IsUniqueConstraintViolation / MapDatabaseError)

Modelling conventions:
  - Go strings are Lean String values; the Go builtin len(s) counts UTF-8 bytes,
    embedded as goLen below; strings.TrimSpace is embedded as goTrimSpace,
    trimming the ASCII whitespace characters (on which Go unicode.IsSpace and
    this model agree; every string appearing in the claims is ASCII).
  - Go errors are values of the inductive GoError: the gorm record-not-found
    sentinel, postgres driver errors carrying an SQLSTATE code and message,
    generic errors carrying a message, and the domain sentinels declared in
    internal/domain (errors.go of the domain package).  ErrInvalidInput is
    referenced by dto/bulk_create_request.go; its declaration is one of the
    domain sentinels and is embedded as the distinct constructor invalidInput.
  - The row store is a list of live items; the unique index idx_items_name on
    name raises SQLSTATE 23505 on conflicting inserts; gorm soft delete hides
    deleted rows from every query, so the live list is the observable table.
  - Fallible storage operations take explicit outcome / fault parameters, so
    every storage failure the Go code could observe is a concrete input here.
-/

/-- Ascii whitespace recognised by strings.TrimSpace (agrees with Go
unicode.IsSpace on the ASCII range). -/
def goSpace (c : Char) : Bool :=
  c == ' ' || c == '\t' || c == '\n' || c == '\r' || c == (Char.ofNat 11) || c == (Char.ofNat 12)

/-- List-level trim: drop whitespace from the front, then from the back. -/
def listTrim (l : List Char) : List Char :=
  ((l.dropWhile goSpace).reverse.dropWhile goSpace).reverse

/-- Embedding of strings.TrimSpace. -/
def goTrimSpace (s : String) : String :=
  String.mk (listTrim s.data)

/-- UTF-8 byte count of a character list. -/
def utf8Len (l : List Char) : Nat :=
  (l.map Char.utf8Size).sum

/-- Embedding of the Go builtin len on strings: the UTF-8 byte count. -/
def goLen (s : String) : Nat :=
  utf8Len s.data

/-- Substring test helper: does the pattern occur at the head of the list. -/
def matchesAt : List Char → List Char → Bool
  | [], _ => true
  | _ :: _, [] => false
  | p :: ps, c :: cs => p == c && matchesAt ps cs

/-- Substring test helper: does the pattern occur anywhere in the list. -/
def containsSub : List Char → List Char → Bool
  | pat, [] => matchesAt pat []
  | pat, c :: rest => matchesAt pat (c :: rest) || containsSub pat rest

/-- Embedding of strings.Contains. -/
def goContains (s pat : String) : Bool :=
  containsSub pat.data s.data

/-- Embedding of strings.ToLower, written over the character list (equal to
String.toLower, which maps Char.toLower over the string). -/
def goToLower (s : String) : String :=
  String.mk (s.data.map Char.toLower)

/-- Go error values reaching the layers under verification.  recordNotFound is
gorm.ErrRecordNotFound, pgError is a pgconn.PgError with its SQLSTATE code and
message, errMessage is any other driver or infrastructure error, and the
remaining constructors are the domain sentinels of internal/domain. -/
inductive GoError
  | recordNotFound
  | pgError (code : String) (message : String)
  | errMessage (message : String)
  | itemNameRequired
  | itemNameTooLong
  | itemAmountTooLarge
  | itemNotFound
  | itemAlreadyExists
  | itemCannotBeDeleted
  | invalidPagination
  | pageTooLarge
  | limitTooLarge
  | invalidInput
deriving DecidableEq

/-- The message returned by the Error method of each embedded error value
(the domain sentinels carry the errors.New strings of internal/domain). -/
def goErrorMessage : GoError → String
  | .recordNotFound => "record not found"
  | .pgError _ message => message
  | .errMessage message => message
  | .itemNameRequired => "item name is required"
  | .itemNameTooLong => "item name cannot exceed 100 characters"
  | .itemAmountTooLarge => "item amount cannot exceed 999999"
  | .itemNotFound => "item not found"
  | .itemAlreadyExists => "item already exists"
  | .itemCannotBeDeleted => "item cannot be deleted"
  | .invalidPagination => "invalid pagination parameters"
  | .pageTooLarge => "page number too large"
  | .limitTooLarge => "limit too large"
  | .invalidInput => "invalid input"

/-- Keyword list of ErrorHandler.IsUniqueConstraintViolation (pkg/errors). -/
def uniqueKeywords : List String :=
  ["unique constraint", "duplicate key", "duplicate entry",
   "unique violation", "uniqueindex", "idx_items_name"]

/-- Keyword list of ErrorHandler.IsForeignKeyConstraintViolation (pkg/errors). -/
def foreignKeyKeywords : List String :=
  ["foreign key constraint", "foreign key violation",
   "violates foreign key", "fk constraint"]

/-- Embedding of ErrorHandler.IsUniqueConstraintViolation: a pgconn.PgError is
classified by its SQLSTATE code alone, every other error by scanning its
lower-cased message for the unique-violation keywords. -/
def isUniqueConstraintViolation : GoError → Bool
  | .pgError code _ => code == "23505"
  | e => uniqueKeywords.any (fun kw => goContains (goToLower (goErrorMessage e)) kw)

/-- Embedding of ErrorHandler.IsForeignKeyConstraintViolation. -/
def isForeignKeyConstraintViolation : GoError → Bool
  | .pgError code _ => code == "23503"
  | e => foreignKeyKeywords.any (fun kw => goContains (goToLower (goErrorMessage e)) kw)

/-- Embedding of ErrorHandler.MapDatabaseError (pkg/errors): gorm
record-not-found becomes the domain not-found sentinel, unique violations
become the domain already-exists sentinel, anything else passes through
unchanged (the foreign-key branch of the source also returns the original
error). -/
def mapDatabaseError (err : GoError) : GoError :=
  if err = .recordNotFound then .itemNotFound
  else if isUniqueConstraintViolation err then .itemAlreadyExists
  else if isForeignKeyConstraintViolation err then err
  else err

/-- Embedding of the Item entity (internal/domain/entities/item.go): the
identifier of BaseEntity, the trimmed name and the unsigned amount.  The
timestamps play no role in any claim. -/
structure Item where
  id : String
  name : String
  amount : Nat
deriving DecidableEq

/-- Embedding of dto.CreateItemRequest. -/
structure CreateItemRequest where
  name : String
  amount : Nat
deriving DecidableEq

/-- Embedding of CreateItemRequest.Validate: empty-after-trim check on the
name, then the length bound on the raw name, then the amount ceiling. -/
def CreateItemRequest.validate (r : CreateItemRequest) : Option GoError :=
  if goTrimSpace r.name = "" then some .itemNameRequired
  else if goLen r.name > 100 then some .itemNameTooLong
  else if r.amount > 999999 then some .itemAmountTooLarge
  else none

/-- Embedding of CreateItemRequest.ToEntity: the stored name is trimmed. -/
def CreateItemRequest.toEntity (r : CreateItemRequest) : Item :=
  { id := "", name := goTrimSpace r.name, amount := r.amount }

/-- Embedding of ItemValidator.ValidateItem (the nil-item branch of the source
cannot arise for a Lean value). -/
def validateItem (it : Item) : Option GoError :=
  if goTrimSpace it.name = "" then some .itemNameRequired
  else if goLen it.name > 100 then some .itemNameTooLong
  else if it.amount > 999999 then some .itemAmountTooLarge
  else none

/-- Embedding of dto.PaginationRequest (Go int fields). -/
structure PaginationRequest where
  page : Int
  limit : Int
deriving DecidableEq

/-- Embedding of PaginationRequest.Validate. -/
def PaginationRequest.validate (r : PaginationRequest) : Option GoError :=
  if r.page < 0 then some .invalidPagination
  else if r.limit < 0 then some .invalidPagination
  else if r.limit > 100 then some .limitTooLarge
  else none

/-- Embedding of PaginationRequest.ApplyDefaults: page defaults to 1, limit
defaults to 10 and is then clamped to 100, mutating in source order. -/
def PaginationRequest.applyDefaults (r : PaginationRequest) : PaginationRequest :=
  let page := if r.page ≤ 0 then 1 else r.page
  let limit := if r.limit ≤ 0 then 10 else r.limit
  let limit := if limit > 100 then 100 else limit
  { page := page, limit := limit }

/-- Embedding of types.PaginatedResult instantiated at Item. -/
structure PaginatedResult where
  items : List Item
  total : Int
  page : Int
  limit : Int
  totalPages : Int
deriving DecidableEq

/-- Embedding of itemRepository.GetWithPagination over the live table: count,
offset (page-1)*limit, the offset/limit window, and the total page count
(total + limit - 1) / limit computed with Go int64 division (truncation
toward zero, Int.tdiv).  A negative SQL offset is clamped by toNat only in
the window selection; the claims are about totalPages. -/
def itemRepositoryGetWithPagination (db : List Item) (page limit : Int) : PaginatedResult :=
  let total : Int := db.length
  let offset : Int := (page - 1) * limit
  let items := (db.drop offset.toNat).take limit.toNat
  let totalPages := Int.tdiv (total + limit - 1) limit
  { items := items, total := total, page := page, limit := limit, totalPages := totalPages }

/-- Embedding of itemUseCase.GetWithPagination: ApplyDefaults runs first, then
Validate, then the repository read with the defaulted values. -/
def ucGetWithPagination (r : PaginationRequest) (db : List Item) : Except GoError PaginatedResult :=
  let r2 := r.applyDefaults
  match r2.validate with
  | some e => .error e
  | none => .ok (itemRepositoryGetWithPagination db r2.page r2.limit)

/-- Embedding of itemRepository.Get / GetWithTx: First on id, which surfaces
gorm.ErrRecordNotFound when no live row matches. -/
def repoGet (db : List Item) (id : String) : Except GoError Item :=
  match db.find? (fun it => it.id == id) with
  | some it => .ok it
  | none => .error .recordNotFound

/-- Embedding of itemUseCase.Get, with the repository read outcome passed
explicitly: the empty identifier short-circuits to ErrInvalidPagination (the
source comment reads: using available error for now), and every read error is
replaced by ErrItemNotFound. -/
def ucGet (id : String) (readResult : Except GoError Item) : Except GoError Item :=
  if id = "" then .error .invalidPagination
  else
    match readResult with
    | .error _ => .error .itemNotFound
    | .ok it => .ok it

/-- Embedding of itemUseCase.Delete: the empty identifier short-circuits to
ErrInvalidPagination, a failed existence read yields ErrItemNotFound without
touching the table, and otherwise the repository delete removes the row. -/
def ucDelete (id : String) (readResult : Except GoError Item) (db : List Item) :
    List Item × Option GoError :=
  if id = "" then (db, some .invalidPagination)
  else
    match readResult with
    | .error _ => (db, some .itemNotFound)
    | .ok _ => (db.filter (fun it => !(it.id == id)), none)

/-- The use-case Get with the read outcome supplied by the repository. -/
def ucGetDb (db : List Item) (id : String) : Except GoError Item :=
  ucGet id (repoGet db id)

/-- The use-case Delete with the read outcome supplied by the repository. -/
def ucDeleteDb (db : List Item) (id : String) : List Item × Option GoError :=
  ucDelete id (repoGet db id) db

/-- Embedding of dto.BulkCreateRequest. -/
structure BulkCreateRequest where
  items : List CreateItemRequest
deriving DecidableEq

/-- Embedding of the range loop of BulkCreateRequest.Validate: each item is
validated first, then the running index is checked against the 1000 cap. -/
def bulkValidateLoop : Nat → List CreateItemRequest → Option GoError
  | _, [] => none
  | i, item :: rest =>
    match item.validate with
    | some e => some e
    | none => if 1000 ≤ i then some .invalidInput else bulkValidateLoop (i + 1) rest

/-- Embedding of BulkCreateRequest.Validate: an empty batch fails with
ErrItemNameRequired, then the indexed loop runs from index 0. -/
def BulkCreateRequest.validate (req : BulkCreateRequest) : Option GoError :=
  if req.items.length = 0 then some .itemNameRequired
  else bulkValidateLoop 0 req.items

/-- Embedding of BulkCreateRequest.ToEntities. -/
def BulkCreateRequest.toEntities (req : BulkCreateRequest) : List Item :=
  req.items.map CreateItemRequest.toEntity

/-- Embedding of the namesSeen loop of itemUseCase.BulkCreate: true when some
entity name repeats an earlier one (the seen set is carried explicitly). -/
def findInternalDuplicate : List Item → List String → Bool
  | [], _ => false
  | it :: rest, seen =>
    if seen.contains it.name then true else findInternalDuplicate rest (it.name :: seen)

/-- Storage operations issued inside the bulk transaction, logged so that the
claims about touching storage are statable. -/
inductive StorageOp
  | queryNames (names : List String)
  | insert (name : String)
deriving DecidableEq

/-- Embedding of itemRepository.GetByNamesWithTx: an empty name list returns
no rows without a query; otherwise one WHERE name IN query. -/
def getByNamesWithTx (db : List Item) (names : List String) : List Item :=
  if names.length = 0 then []
  else db.filter (fun it => names.contains it.name)

/-- Fuel-driven helper for the chunk loop of
checkExternalDuplicatesInBatchesWithTx: each round takes at most 1000 items
and drops them.  The fuel only bounds the number of rounds; chunks1000 below
instantiates it with the list length, which every round strictly decreases,
so the middle fallback equation is dead code there (chunks1000_eq proves the
loop-shaped characterisation). -/
def chunksAux : Nat → List Item → List (List Item)
  | _, [] => []
  | 0, l => [l]
  | fuel + 1, l => l.take 1000 :: chunksAux fuel (l.drop 1000)

/-- The chunking of checkExternalDuplicatesInBatchesWithTx: slices of at most
1000 items, in order. -/
def chunks1000 (l : List Item) : List (List Item) :=
  chunksAux l.length l

/-- Embedding of the chunk loop of checkExternalDuplicatesInBatchesWithTx:
each chunk issues one GetByNamesWithTx query; the first chunk with existing
rows aborts with ErrItemAlreadyExists.  The issued queries are logged. -/
def checkExternalDuplicatesLoop (db : List Item) : List (List Item) → List StorageOp × Option GoError
  | [] => ([], none)
  | c :: rest =>
    let names := c.map Item.name
    let existing := getByNamesWithTx db names
    if existing.length > 0 then ([StorageOp.queryNames names], some .itemAlreadyExists)
    else
      let next := checkExternalDuplicatesLoop db rest
      (StorageOp.queryNames names :: next.1, next.2)

/-- Embedding of itemRepository.CreateWithTx over the live table: an injected
driver fault, or the unique index idx_items_name on a conflicting live row
(SQLSTATE 23505), makes the insert fail; every failure is passed through
ErrorHandler.MapDatabaseError exactly as in the source. -/
def createWithTx (db : List Item) (it : Item) (fault : Option GoError) :
    Except GoError (List Item × Item) :=
  match fault with
  | some e => .error (mapDatabaseError e)
  | none =>
    if db.any (fun r => r.name == it.name) then
      .error (mapDatabaseError (GoError.pgError "23505"
        "duplicate key value violates unique constraint idx_items_name"))
    else .ok (db ++ [it], it)

/-- Embedding of the insert loop of itemUseCase.BulkCreate: items are inserted
in input order through CreateWithTx; the first failure aborts with its error.
The fault oracle gives the injected driver failure of the k-th insert. -/
def bulkInsertLoop (fault : Nat → Option GoError) :
    List Item → Nat → List Item → List Item →
    List StorageOp × Except GoError (List Item × List Item)
  | [], _, db, acc => ([], .ok (db, acc))
  | it :: rest, k, db, acc =>
    match createWithTx db it (fault k) with
    | .error e => ([StorageOp.insert it.name], .error e)
    | .ok (db2, created) =>
      let next := bulkInsertLoop fault rest (k + 1) db2 (acc ++ [created])
      (StorageOp.insert it.name :: next.1, next.2)

/-- Embedding of the validator loop inside the bulk transaction. -/
def validateAll : List Item → Option GoError
  | [] => none
  | it :: rest =>
    match validateItem it with
    | some e => some e
    | none => validateAll rest

/-- The body of the single bulk transaction of itemUseCase.BulkCreate, in
source order: validate every entity, then the batched duplicate check against
storage, then the in-order inserts. -/
def bulkTxBody (itemsToCreate : List Item) (db : List Item) (fault : Nat → Option GoError) :
    List StorageOp × Except GoError (List Item × List Item) :=
  match validateAll itemsToCreate with
  | some e => ([], .error e)
  | none =>
    match checkExternalDuplicatesLoop db (chunks1000 itemsToCreate) with
    | (ops, some e) => (ops, .error e)
    | (ops, none) =>
      let next := bulkInsertLoop fault itemsToCreate 0 db []
      (ops ++ next.1, next.2)

/-- Embedding of itemUseCase.BulkCreate: request validation, the intra-batch
duplicate check, then one storage transaction whose failure rolls the table
back (gorm db.Transaction).  Returns the final table, the log of storage
operations issued, and the outcome. -/
def bulkCreate (req : BulkCreateRequest) (db : List Item) (fault : Nat → Option GoError) :
    List Item × List StorageOp × Except GoError (List Item) :=
  match req.validate with
  | some e => (db, [], .error e)
  | none =>
    let itemsToCreate := req.toEntities
    if findInternalDuplicate itemsToCreate [] then (db, [], .error .itemAlreadyExists)
    else
      match bulkTxBody itemsToCreate db fault with
      | (ops, .error e) => (db, ops, .error e)
      | (ops, .ok (db2, results)) => (db2, ops, .ok results)

/-- Embedding of the check function passed by itemUseCase.Create to
AtomicCreateItem: the source tests that err is nil and existingItem is not nil, so a
found row yields ErrItemAlreadyExists and ANY error from the locking read
(including a genuine storage failure) falls through to return nil. -/
def createCheckFn (lockedRead : Except GoError Item) : Option GoError :=
  match lockedRead with
  | .ok _ => some .itemAlreadyExists
  | .error _ => none

/-- Embedding of itemUseCase.Create composed with
TransactionHelper.AtomicCreateItem: request validation, entity validation,
then inside one transaction the pessimistic-lock check followed by
CreateWithTx; any error returned from the transaction body rolls the table
back.  The outcome of the locking read and the injected insert fault are
explicit inputs. -/
def ucCreateFlow (req : CreateItemRequest) (db : List Item)
    (lockedRead : Except GoError Item) (fault : Option GoError) :
    List Item × Except GoError Item :=
  match req.validate with
  | some e => (db, .error e)
  | none =>
    let item := req.toEntity
    match validateItem item with
    | some e => (db, .error e)
    | none =>
      match createCheckFn lockedRead with
      | some e => (db, .error e)
      | none =>
        match createWithTx db item fault with
        | .error e => (db, .error e)
        | .ok (db2, created) => (db2, .ok created)

/-- Composition of the two validation gates of itemUseCase.Create, in source
order: CreateItemRequest.Validate, then ItemValidator.ValidateItem on the
trimmed entity. -/
def createRequestAccepted (req : CreateItemRequest) : Option GoError :=
  match req.validate with
  | some e => some e
  | none => validateItem req.toEntity

/-- Outcome of one AtomicCreate call. -/
inductive CreateOutcome
  | ok
  | fail (e : GoError)
deriving DecidableEq

/-- Phase of one transaction running itemUseCase.Create for the contested
name: before the locking read, after a locking read that found no row, after
an insert whose unique-index entry is pending commit, or finished. -/
inductive TxPhase
  | start
  | checked
  | inserted
  | done (r : CreateOutcome)
deriving DecidableEq

/-- Global state of n concurrent AtomicCreate calls with one contested name:
the number of committed live rows carrying that name, and the phase of every
transaction.  Locks and the unique index are per-name (the lock is taken by
the WHERE name query, the index is on name), so rows with other names cannot
interact with these transactions and are left out of the state. -/
structure RaceState (n : Nat) where
  table : Nat
  phase : Fin n → TxPhase

/-- All transactions at the locking read, no committed row yet. -/
def initState (n : Nat) : RaceState n :=
  { table := 0, phase := fun _ => .start }

/-- One scheduler step of the race.  The rules embed, per transaction, the
storage semantics the source relies on (read committed, SELECT FOR UPDATE,
unique index):
- checkFound: GetByNameForUpdate finds a committed row, the check function
  returns ErrItemAlreadyExists and the transaction rolls back.
- checkEmpty: no committed row is visible; the FOR UPDATE read of a row that
  does not exist takes no lock, so this step is always enabled then.
- insertAcquire: tx.Create writes the unique-index entry for the name; a
  second pending entry for the same key blocks, so the step is enabled only
  while no other transaction holds a pending insert and no row is committed.
- insertUniqueViolation: tx.Create against a committed conflicting row
  raises SQLSTATE 23505, which CreateWithTx passes through MapDatabaseError;
  the transaction rolls back.  This is also the fate of a blocked inserter
  once the pending holder commits.
- commit: the transaction function returned nil, gorm commits, the pending
  row becomes a committed live row. -/
inductive RaceStep (n : Nat) : RaceState n → RaceState n → Prop
  | checkFound (s : RaceState n) (i : Fin n)
      (hp : s.phase i = .start) (ht : 0 < s.table) :
      RaceStep n s ⟨s.table, Function.update s.phase i (.done (.fail .itemAlreadyExists))⟩
  | checkEmpty (s : RaceState n) (i : Fin n)
      (hp : s.phase i = .start) (ht : s.table = 0) :
      RaceStep n s ⟨s.table, Function.update s.phase i .checked⟩
  | insertAcquire (s : RaceState n) (i : Fin n)
      (hp : s.phase i = .checked) (ht : s.table = 0)
      (hfree : ∀ j, s.phase j ≠ .inserted) :
      RaceStep n s ⟨s.table, Function.update s.phase i .inserted⟩
  | insertUniqueViolation (s : RaceState n) (i : Fin n) (e : GoError)
      (hp : s.phase i = .checked) (ht : 0 < s.table)
      (he : isUniqueConstraintViolation e = true) :
      RaceStep n s ⟨s.table, Function.update s.phase i (.done (.fail (mapDatabaseError e)))⟩
  | commit (s : RaceState n) (i : Fin n)
      (hp : s.phase i = .inserted) :
      RaceStep n s ⟨s.table + 1, Function.update s.phase i (.done .ok)⟩

/-- An interleaved execution: any finite sequence of scheduler steps. -/
def RaceSteps (n : Nat) : RaceState n → RaceState n → Prop :=
  Relation.ReflTransGen (RaceStep n)

/-- Inductive invariant of the race: the committed table holds at most one
row, table occupancy tracks the committed transaction, pending inserts are
exclusive and only exist over an empty table, and every failed transaction
failed with the already-exists sentinel after the table was occupied. -/
structure RaceInv {n : Nat} (s : RaceState n) : Prop where
  table_le : s.table ≤ 1
  ok_table : ∀ i, s.phase i = .done .ok → s.table = 1
  table_ok : s.table = 1 → ∃ i, s.phase i = .done .ok
  ok_unique : ∀ i j, s.phase i = .done .ok → s.phase j = .done .ok → i = j
  inserted_table : ∀ i, s.phase i = .inserted → s.table = 0
  inserted_unique : ∀ i j, s.phase i = .inserted → s.phase j = .inserted → i = j
  fail_eq : ∀ i e, s.phase i = .done (.fail e) → e = .itemAlreadyExists
  fail_table : ∀ i e, s.phase i = .done (.fail e) → s.table = 1
/-- Intermediate states of a concrete two-transaction race: both transactions
pass the locking read, transaction 0 inserts and commits, then transaction 1
hits the unique index of the committed row. -/
def raceS1 : RaceState 2 :=
  ⟨0, Function.update (initState 2).phase 0 .checked⟩
/-- Second demo state: transaction 1 has also passed the locking read. -/
def raceS2 : RaceState 2 :=
  ⟨0, Function.update raceS1.phase 1 .checked⟩
/-- Third demo state: transaction 0 holds the pending unique-index entry. -/
def raceS3 : RaceState 2 :=
  ⟨0, Function.update raceS2.phase 0 .inserted⟩
/-- Fourth demo state: transaction 0 has committed. -/
def raceS4 : RaceState 2 :=
  ⟨1, Function.update raceS3.phase 0 (.done .ok)⟩
/-- Final demo state: transaction 1 failed with the mapped 23505 violation. -/
def raceS5 : RaceState 2 :=
  ⟨1, Function.update raceS4.phase 1
    (.done (.fail (mapDatabaseError (GoError.pgError "23505" "duplicate key"))))⟩
/-- A raw name of one hundred a characters. -/
def nameA100 : String :=
  String.mk (List.replicate 100 'a')
/-- The same name with one trailing blank: 101 bytes raw, 100 after trim. -/
def nameA100sp : String :=
  String.mk (List.replicate 100 'a' ++ [' '])
/-- The concrete batch refuting the claimed step order of C5: the names a, a
repeat within the batch and the third candidate violates the amount ceiling. -/
def c5Req : BulkCreateRequest :=
  ⟨[⟨"a", 5⟩, ⟨"a", 7⟩, ⟨"b", 1000000⟩]⟩

/-- MapDatabaseError sends every unique-constraint violation to the domain
already-exists sentinel (the record-not-found branch cannot fire first, since
the record-not-found message matches no unique keyword). -/
theorem mapDatabaseError_of_unique (e : GoError)
    (h : isUniqueConstraintViolation e = true) :
    mapDatabaseError e = GoError.itemAlreadyExists := by
  by_cases hrec : e = .recordNotFound
  · subst hrec
    exact absurd h (by decide)
  · simp [mapDatabaseError, hrec, h]

/-- The initial state satisfies the invariant. -/
theorem raceInv_init (n : Nat) : RaceInv (initState n) := by
  refine ⟨?_, ?_, ?_, ?_, ?_, ?_, ?_, ?_⟩ <;>
    simp [initState]

/-- Every scheduler step preserves the invariant. -/
theorem raceStep_inv {n : Nat} {s t : RaceState n}
    (h : RaceStep n s t) (inv : RaceInv s) : RaceInv t := by
  cases h with
  | checkFound i hp ht =>
    have htab : s.table = 1 := le_antisymm inv.table_le ht
    refine ⟨inv.table_le, ?_, ?_, ?_, ?_, ?_, ?_, ?_⟩ <;> dsimp only
    · intro j hj
      rcases eq_or_ne j i with rfl | hji
      · rw [Function.update_same] at hj; cases hj
      · rw [Function.update_noteq hji] at hj; exact inv.ok_table j hj
    · intro h1
      obtain ⟨k, hk⟩ := inv.table_ok h1
      have hki : k ≠ i := by intro hc; subst hc; rw [hp] at hk; cases hk
      exact ⟨k, by rw [Function.update_noteq hki]; exact hk⟩
    · intro j k hj hk
      rcases eq_or_ne j i with rfl | hj2
      · rw [Function.update_same] at hj; cases hj
      · rcases eq_or_ne k i with rfl | hk2
        · rw [Function.update_same] at hk; cases hk
        · rw [Function.update_noteq hj2] at hj
          rw [Function.update_noteq hk2] at hk
          exact inv.ok_unique j k hj hk
    · intro j hj
      rcases eq_or_ne j i with rfl | hji
      · rw [Function.update_same] at hj; cases hj
      · rw [Function.update_noteq hji] at hj; exact inv.inserted_table j hj
    · intro j k hj hk
      rcases eq_or_ne j i with rfl | hj2
      · rw [Function.update_same] at hj; cases hj
      · rcases eq_or_ne k i with rfl | hk2
        · rw [Function.update_same] at hk; cases hk
        · rw [Function.update_noteq hj2] at hj
          rw [Function.update_noteq hk2] at hk
          exact inv.inserted_unique j k hj hk
    · intro j e hj
      rcases eq_or_ne j i with rfl | hji
      · rw [Function.update_same] at hj
        injection hj with hj2
        injection hj2 with hj3
        exact hj3.symm
      · rw [Function.update_noteq hji] at hj; exact inv.fail_eq j e hj
    · intro j e hj
      exact htab
  | checkEmpty i hp ht =>
    refine ⟨inv.table_le, ?_, ?_, ?_, ?_, ?_, ?_, ?_⟩ <;> dsimp only
    · intro j hj
      rcases eq_or_ne j i with rfl | hji
      · rw [Function.update_same] at hj; cases hj
      · rw [Function.update_noteq hji] at hj; exact inv.ok_table j hj
    · intro h1
      obtain ⟨k, hk⟩ := inv.table_ok h1
      have hki : k ≠ i := by intro hc; subst hc; rw [hp] at hk; cases hk
      exact ⟨k, by rw [Function.update_noteq hki]; exact hk⟩
    · intro j k hj hk
      rcases eq_or_ne j i with rfl | hj2
      · rw [Function.update_same] at hj; cases hj
      · rcases eq_or_ne k i with rfl | hk2
        · rw [Function.update_same] at hk; cases hk
        · rw [Function.update_noteq hj2] at hj
          rw [Function.update_noteq hk2] at hk
          exact inv.ok_unique j k hj hk
    · intro j hj
      rcases eq_or_ne j i with rfl | hji
      · rw [Function.update_same] at hj; cases hj
      · rw [Function.update_noteq hji] at hj; exact inv.inserted_table j hj
    · intro j k hj hk
      rcases eq_or_ne j i with rfl | hj2
      · rw [Function.update_same] at hj; cases hj
      · rcases eq_or_ne k i with rfl | hk2
        · rw [Function.update_same] at hk; cases hk
        · rw [Function.update_noteq hj2] at hj
          rw [Function.update_noteq hk2] at hk
          exact inv.inserted_unique j k hj hk
    · intro j e hj
      rcases eq_or_ne j i with rfl | hji
      · rw [Function.update_same] at hj; cases hj
      · rw [Function.update_noteq hji] at hj; exact inv.fail_eq j e hj
    · intro j e hj
      rcases eq_or_ne j i with rfl | hji
      · rw [Function.update_same] at hj; cases hj
      · rw [Function.update_noteq hji] at hj; exact inv.fail_table j e hj
  | insertAcquire i hp ht hfree =>
    refine ⟨inv.table_le, ?_, ?_, ?_, ?_, ?_, ?_, ?_⟩ <;> dsimp only
    · intro j hj
      rcases eq_or_ne j i with rfl | hji
      · rw [Function.update_same] at hj; cases hj
      · rw [Function.update_noteq hji] at hj; exact inv.ok_table j hj
    · intro h1
      exact absurd h1 (by omega)
    · intro j k hj hk
      rcases eq_or_ne j i with rfl | hj2
      · rw [Function.update_same] at hj; cases hj
      · rcases eq_or_ne k i with rfl | hk2
        · rw [Function.update_same] at hk; cases hk
        · rw [Function.update_noteq hj2] at hj
          rw [Function.update_noteq hk2] at hk
          exact inv.ok_unique j k hj hk
    · intro j hj
      exact ht
    · intro j k hj hk
      rcases eq_or_ne j i with rfl | hj2
      · rcases eq_or_ne k j with rfl | hk2
        · rfl
        · rw [Function.update_noteq hk2] at hk
          exact absurd hk (hfree k)
      · rw [Function.update_noteq hj2] at hj
        exact absurd hj (hfree j)
    · intro j e hj
      rcases eq_or_ne j i with rfl | hji
      · rw [Function.update_same] at hj; cases hj
      · rw [Function.update_noteq hji] at hj; exact inv.fail_eq j e hj
    · intro j e hj
      rcases eq_or_ne j i with rfl | hji
      · rw [Function.update_same] at hj; cases hj
      · rw [Function.update_noteq hji] at hj; exact inv.fail_table j e hj
  | insertUniqueViolation i e hp ht he =>
    have htab : s.table = 1 := le_antisymm inv.table_le ht
    refine ⟨inv.table_le, ?_, ?_, ?_, ?_, ?_, ?_, ?_⟩ <;> dsimp only
    · intro j hj
      rcases eq_or_ne j i with rfl | hji
      · rw [Function.update_same] at hj; cases hj
      · rw [Function.update_noteq hji] at hj; exact inv.ok_table j hj
    · intro h1
      obtain ⟨k, hk⟩ := inv.table_ok h1
      have hki : k ≠ i := by intro hc; subst hc; rw [hp] at hk; cases hk
      exact ⟨k, by rw [Function.update_noteq hki]; exact hk⟩
    · intro j k hj hk
      rcases eq_or_ne j i with rfl | hj2
      · rw [Function.update_same] at hj; cases hj
      · rcases eq_or_ne k i with rfl | hk2
        · rw [Function.update_same] at hk; cases hk
        · rw [Function.update_noteq hj2] at hj
          rw [Function.update_noteq hk2] at hk
          exact inv.ok_unique j k hj hk
    · intro j hj
      rcases eq_or_ne j i with rfl | hji
      · rw [Function.update_same] at hj; cases hj
      · rw [Function.update_noteq hji] at hj; exact inv.inserted_table j hj
    · intro j k hj hk
      rcases eq_or_ne j i with rfl | hj2
      · rw [Function.update_same] at hj; cases hj
      · rcases eq_or_ne k i with rfl | hk2
        · rw [Function.update_same] at hk; cases hk
        · rw [Function.update_noteq hj2] at hj
          rw [Function.update_noteq hk2] at hk
          exact inv.inserted_unique j k hj hk
    · intro j e2 hj
      rcases eq_or_ne j i with rfl | hji
      · rw [Function.update_same] at hj
        injection hj with hj2
        injection hj2 with hj3
        rw [← hj3]
        exact mapDatabaseError_of_unique e he
      · rw [Function.update_noteq hji] at hj; exact inv.fail_eq j e2 hj
    · intro j e2 hj
      exact htab
  | commit i hp =>
    have htab : s.table = 0 := inv.inserted_table i hp
    refine ⟨?_, ?_, ?_, ?_, ?_, ?_, ?_, ?_⟩ <;> dsimp only
    · omega
    · intro j hj
      omega
    · intro h1
      exact ⟨i, by rw [Function.update_same]⟩
    · intro j k hj hk
      rcases eq_or_ne j i with rfl | hj2
      · rcases eq_or_ne k j with rfl | hk2
        · rfl
        · rw [Function.update_noteq hk2] at hk
          have := inv.ok_table k hk
          omega
      · rw [Function.update_noteq hj2] at hj
        have := inv.ok_table j hj
        omega
    · intro j hj
      rcases eq_or_ne j i with rfl | hji
      · rw [Function.update_same] at hj; cases hj
      · rw [Function.update_noteq hji] at hj
        have := inv.inserted_unique j i hj hp
        exact absurd this hji
    · intro j k hj hk
      rcases eq_or_ne j i with rfl | hj2
      · rw [Function.update_same] at hj; cases hj
      · rw [Function.update_noteq hj2] at hj
        have := inv.inserted_unique j i hj hp
        exact absurd this hj2
    · intro j e hj
      rcases eq_or_ne j i with rfl | hji
      · rw [Function.update_same] at hj; cases hj
      · rw [Function.update_noteq hji] at hj; exact inv.fail_eq j e hj
    · intro j e hj
      rcases eq_or_ne j i with rfl | hji
      · rw [Function.update_same] at hj; cases hj
      · rw [Function.update_noteq hji] at hj
        have := inv.fail_table j e hj
        omega

/-- The invariant holds in every state reachable from the initial one. -/
theorem raceSteps_inv {n : Nat} {s : RaceState n}
    (h : RaceSteps n (initState n) s) : RaceInv s := by
  induction h with
  | refl => exact raceInv_init n
  | tail hab hbc ih => exact raceStep_inv hbc ih

/-- C1: for every N at least 2 concurrent AtomicCreate calls with the same
name, in every complete interleaved execution exactly one call succeeds, all
others fail with the domain already-exists error, and exactly one committed
live row with that name remains.  This is the observable content of the
atomicity guarantee of the locking read plus insert sequence: the lock and
the unique-index backstop together make the outcome equal to a serial one. -/
theorem atomicCreate_race_exactly_one {n : Nat} (hn : 2 ≤ n) (s : RaceState n)
    (hrun : RaceSteps n (initState n) s)
    (hdone : ∀ i, ∃ r, s.phase i = .done r) :
    (∃! i, s.phase i = .done .ok) ∧
    (∀ i, s.phase i ≠ .done .ok → s.phase i = .done (.fail .itemAlreadyExists)) ∧
    s.table = 1 := by
  have inv := raceSteps_inv hrun
  have htab : s.table = 1 := by
    rcases Nat.eq_zero_or_pos s.table with h0 | h0
    · obtain ⟨r, hr⟩ := hdone ⟨0, by omega⟩
      cases r with
      | ok =>
        have := inv.ok_table _ hr
        omega
      | fail e =>
        have := inv.fail_table _ e hr
        omega
    · have := inv.table_le
      omega
  obtain ⟨i, hi⟩ := inv.table_ok htab
  refine ⟨⟨i, hi, ?_⟩, ?_, htab⟩
  · intro j hj
    exact inv.ok_unique j i hj hi
  · intro j hj
    obtain ⟨r, hr⟩ := hdone j
    cases r with
    | ok => exact absurd hr hj
    | fail e =>
      have he := inv.fail_eq j e hr
      rw [hr, he]

/-- The demo interleaving is a legal execution of the race. -/
theorem raceDemo_steps : RaceSteps 2 (initState 2) raceS5 :=
  Relation.ReflTransGen.tail
    (Relation.ReflTransGen.tail
      (Relation.ReflTransGen.tail
        (Relation.ReflTransGen.tail
          (Relation.ReflTransGen.tail Relation.ReflTransGen.refl
            (RaceStep.checkEmpty (initState 2) 0 rfl rfl))
          (RaceStep.checkEmpty raceS1 1 (by decide) rfl))
        (RaceStep.insertAcquire raceS2 0 (by decide) rfl (by decide)))
      (RaceStep.commit raceS3 0 (by decide)))
    (RaceStep.insertUniqueViolation raceS4 1 (GoError.pgError "23505" "duplicate key")
      (by decide) (by decide) (by decide))

/-- Witness for C1: the race theorem applied to the concrete two-transaction
execution above. -/
theorem atomicCreate_race_exactly_one_witness :
    (∃! i : Fin 2, raceS5.phase i = .done .ok) ∧
    (∀ i : Fin 2, raceS5.phase i ≠ .done .ok →
      raceS5.phase i = .done (.fail .itemAlreadyExists)) ∧
    raceS5.table = 1 :=
  atomicCreate_race_exactly_one (by omega) raceS5 raceDemo_steps
    (by
      intro i
      fin_cases i
      · exact ⟨.ok, by decide⟩
      · exact ⟨.fail (mapDatabaseError (GoError.pgError "23505" "duplicate key")), by decide⟩)

/-- C4: every unique-constraint violation surfaced by storage during a create
insert, whether an injected driver error classified by
IsUniqueConstraintViolation or the unique index firing against a conflicting
live row, is returned by CreateWithTx as the domain already-exists sentinel
and never as the raw storage error.  Single create and bulk create both
insert through CreateWithTx. -/
theorem create_unique_violation_mapped (db : List Item) (it : Item) (e : GoError)
    (h : isUniqueConstraintViolation e = true) :
    createWithTx db it (some e) = .error .itemAlreadyExists ∧
    (db.any (fun r => r.name == it.name) = true →
      createWithTx db it none = .error .itemAlreadyExists) := by
  constructor
  · simp [createWithTx, mapDatabaseError_of_unique e h]
  · intro hc
    simp [createWithTx, hc,
      mapDatabaseError_of_unique
        (GoError.pgError "23505" "duplicate key value violates unique constraint idx_items_name")
        (by decide)]

/-- Witness for C4 at a concrete table, item and driver error. -/
theorem create_unique_violation_mapped_witness :
    createWithTx [⟨"1", "a", 2⟩] ⟨"", "a", 1⟩ (some (GoError.pgError "23505" "boom")) =
      .error .itemAlreadyExists ∧
    createWithTx [⟨"1", "a", 2⟩] ⟨"", "a", 1⟩ none = .error .itemAlreadyExists :=
  ⟨(create_unique_violation_mapped [⟨"1", "a", 2⟩] ⟨"", "a", 1⟩
      (GoError.pgError "23505" "boom") (by decide)).1,
   (create_unique_violation_mapped [⟨"1", "a", 2⟩] ⟨"", "a", 1⟩
      (GoError.pgError "23505" "boom") (by decide)).2 (by decide)⟩

/-- C6: pagination defaults are applied before validation, so validation of
the defaulted request always succeeds: the defaulted page is at least 1, the
defaulted limit lies in 1..100, a requested limit of exactly 101 is clamped
to 100 and passes, and the paginated read never returns the invalid-pagination
rejection for any caller-supplied values. -/
theorem pagination_defaults_before_validation (r : PaginationRequest) :
    (r.applyDefaults).validate = none ∧
    1 ≤ (r.applyDefaults).page ∧
    1 ≤ (r.applyDefaults).limit ∧ (r.applyDefaults).limit ≤ 100 ∧
    (r.limit = 101 → (r.applyDefaults).limit = 100) ∧
    (∀ db, ucGetWithPagination r db =
      .ok (itemRepositoryGetWithPagination db (r.applyDefaults).page (r.applyDefaults).limit)) := by
  have hval : (r.applyDefaults).validate = none := by
    simp only [PaginationRequest.applyDefaults, PaginationRequest.validate]
    split_ifs <;> first | rfl | omega
  have hpage : 1 ≤ (r.applyDefaults).page := by
    simp only [PaginationRequest.applyDefaults]
    split_ifs <;> omega
  have hlim1 : 1 ≤ (r.applyDefaults).limit := by
    simp only [PaginationRequest.applyDefaults]
    split_ifs <;> omega
  have hlim2 : (r.applyDefaults).limit ≤ 100 := by
    simp only [PaginationRequest.applyDefaults]
    split_ifs <;> omega
  refine ⟨hval, hpage, hlim1, hlim2, ?_, ?_⟩
  · intro h101
    simp only [PaginationRequest.applyDefaults, h101]
    norm_num
  · intro db
    simp [ucGetWithPagination, hval]

/-- Witness for C6 at the concrete request page -5, limit 101. -/
theorem pagination_defaults_before_validation_witness :
    (PaginationRequest.mk (-5) 101).applyDefaults.validate = none ∧
    (PaginationRequest.mk (-5) 101).applyDefaults.limit = 100 :=
  ⟨(pagination_defaults_before_validation ⟨-5, 101⟩).1,
   (pagination_defaults_before_validation ⟨-5, 101⟩).2.2.2.2.1 rfl⟩

/-- Truncating Go division agrees with the rational ceiling on the totalPages
formula: for total at least 0 and limit at least 1, (total + limit - 1) tdiv
limit equals the ceiling of total / limit. -/
theorem tdiv_ceil (t l : Int) (h0 : 0 ≤ t) (h1 : 1 ≤ l) :
    Int.tdiv (t + l - 1) l = ⌈(t : ℚ) / (l : ℚ)⌉ := by
  have hl : (0:Int) < l := h1
  have hnn : (0:Int) ≤ t + l - 1 := by omega
  rw [Int.tdiv_eq_ediv hnn (by omega)]
  have hqr := Int.ediv_add_emod (t + l - 1) l
  have hr0 : 0 ≤ (t + l - 1) % l := Int.emod_nonneg _ (by omega)
  have hrl : (t + l - 1) % l < l := Int.emod_lt_of_pos _ hl
  have h2 : t ≤ ((t + l - 1) / l) * l := by linarith
  have h3 : (((t + l - 1) / l) - 1) * l < t := by nlinarith
  have hlQ : (0:ℚ) < (l:ℚ) := by exact_mod_cast hl
  symm
  rw [Int.ceil_eq_iff]
  constructor
  · rw [lt_div_iff₀ hlQ]
    exact_mod_cast h3
  · rw [div_le_iff₀ hlQ]
    exact_mod_cast h2

/-- C7: for every table and every limit at least 1, the paginated read
computes TotalPages as the ceiling of total / limit; with total 25 and limit
10 this is 3, and with total 0 it is 0. -/
theorem paginated_totalPages_is_ceil (db : List Item) (page limit : Int) (h1 : 1 ≤ limit) :
    (itemRepositoryGetWithPagination db page limit).totalPages =
      ⌈(db.length : ℚ) / (limit : ℚ)⌉ := by
  have h0 : (0:Int) ≤ (db.length : Int) := Int.ofNat_nonneg _
  have := tdiv_ceil (db.length : Int) limit h0 h1
  simpa [itemRepositoryGetWithPagination] using this

/-- Witness for C7: a 25-row table read with limit 10 (and, by evaluation of
the ceiling, three total pages). -/
theorem paginated_totalPages_is_ceil_witness :
    (itemRepositoryGetWithPagination (List.replicate 25 ⟨"", "x", 0⟩) 3 10).totalPages =
      ⌈((List.replicate 25 (⟨"", "x", 0⟩ : Item)).length : ℚ) / ((10:Int) : ℚ)⌉ :=
  paginated_totalPages_is_ceil (List.replicate 25 ⟨"", "x", 0⟩) 3 10 (by norm_num)

/-- Counterexample to C9 as stated: the empty identifier does not resolve to
a live item, yet Get fails with the invalid-pagination sentinel, not with
NotFound (the source short-circuits the empty id with the comment: using
available error for now). -/
theorem get_empty_id_counterexample :
    ucGetDb [] "" = .error .invalidPagination ∧
    (Except.error .invalidPagination : Except GoError Item) ≠ .error .itemNotFound := by
  constructor
  · rfl
  · intro hcon
    injection hcon with h2
    exact GoError.noConfusion h2

/-- C9 amended: for every NON-EMPTY identifier that does not resolve to a
live item, Get fails with NotFound and Delete re-confirms existence and fails
with NotFound without issuing the delete; the empty identifier instead fails
with the invalid-pagination sentinel in both operations, also without
touching the table. -/
theorem get_delete_not_found_amended (db : List Item) (id : String) :
    (id ≠ "" → db.find? (fun it => it.id == id) = none →
      ucGetDb db id = .error .itemNotFound ∧
      ucDeleteDb db id = (db, some .itemNotFound)) ∧
    (ucGetDb db "" = .error .invalidPagination ∧
     ucDeleteDb db "" = (db, some .invalidPagination)) := by
  refine ⟨?_, ?_, ?_⟩
  · intro hid hfind
    constructor
    · simp [ucGetDb, ucGet, repoGet, hfind, hid]
    · simp [ucDeleteDb, ucDelete, repoGet, hfind, hid]
  · simp [ucGetDb, ucGet]
  · simp [ucDeleteDb, ucDelete]

/-- Witness for C9 amended: the identifier x is absent from a one-row table. -/
theorem get_delete_not_found_amended_witness :
    ucGetDb [⟨"1", "a", 2⟩] "x" = .error .itemNotFound ∧
    ucDeleteDb [⟨"1", "a", 2⟩] "x" = ([⟨"1", "a", 2⟩], some .itemNotFound) :=
  (get_delete_not_found_amended [⟨"1", "a", 2⟩] "x").1 (by decide) (by decide)

/-- If the indexed validation loop returns no error, either the list was
empty or every index it visited stayed below the 1000 cap. -/
theorem bulkValidateLoop_none_bound (l : List CreateItemRequest) :
    ∀ i, bulkValidateLoop i l = none → l = [] ∨ i + l.length ≤ 1000 := by
  induction l with
  | nil =>
    intro i h
    exact Or.inl rfl
  | cons a rest ih =>
    intro i h
    right
    cases hv : a.validate with
    | some e => simp [bulkValidateLoop, hv] at h
    | none =>
      by_cases hc : 1000 ≤ i
      · simp [bulkValidateLoop, hv, hc] at h
      · simp only [bulkValidateLoop, hv, if_neg hc] at h
        rcases ih (i + 1) h with hrest | hle
        · subst hrest
          simp only [List.length_cons, List.length_nil]
          omega
        · simp only [List.length_cons]
          omega

/-- If the indexed validation loop returns no error, every item in the list
passed CreateItemRequest.Validate. -/
theorem bulkValidateLoop_none_valid (l : List CreateItemRequest) :
    ∀ i, bulkValidateLoop i l = none → ∀ a ∈ l, a.validate = none := by
  induction l with
  | nil =>
    intro i h a ha
    cases ha
  | cons b rest ih =>
    intro i h a ha
    cases hv : b.validate with
    | some e => simp [bulkValidateLoop, hv] at h
    | none =>
      by_cases hc : 1000 ≤ i
      · simp [bulkValidateLoop, hv, hc] at h
      · simp only [bulkValidateLoop, hv, if_neg hc] at h
        rcases List.mem_cons.mp ha with rfl | hmem
        · exact hv
        · exact ih (i + 1) h a hmem

/-- C10: BulkCreate accepts only batches of 1 to 1000 candidates: the empty
batch is rejected with a validation error and any batch of more than 1000
items is rejected, both before any storage operation is issued (empty
operation log, table unchanged); every accepted batch has size 1..1000. -/
theorem bulkCreate_size_gate (req : BulkCreateRequest) (db : List Item)
    (fault : Nat → Option GoError) :
    (req.items = [] → bulkCreate req db fault = (db, [], .error .itemNameRequired)) ∧
    (1000 < req.items.length → ∃ e, bulkCreate req db fault = (db, [], .error e)) ∧
    (∀ db2 ops res, bulkCreate req db fault = (db2, ops, .ok res) →
      1 ≤ req.items.length ∧ req.items.length ≤ 1000) := by
  refine ⟨?_, ?_, ?_⟩
  · intro hnil
    have hval : req.validate = some .itemNameRequired := by
      simp [BulkCreateRequest.validate, hnil]
    simp [bulkCreate, hval]
  · intro hlen
    have hne : req.items.length ≠ 0 := by omega
    cases hv : bulkValidateLoop 0 req.items with
    | none =>
      rcases bulkValidateLoop_none_bound req.items 0 hv with h | h
      · rw [h] at hlen
        simp at hlen
      · omega
    | some e =>
      refine ⟨e, ?_⟩
      have hval : req.validate = some e := by
        simp [BulkCreateRequest.validate, hne, hv]
      simp [bulkCreate, hval]
  · intro db2 ops res hok
    cases hval : req.validate with
    | some e =>
      simp [bulkCreate, hval] at hok
    | none =>
      have hne : req.items.length ≠ 0 := by
        intro hc
        simp [BulkCreateRequest.validate, hc] at hval
      have hloop : bulkValidateLoop 0 req.items = none := by
        simpa [BulkCreateRequest.validate, hne] using hval
      rcases bulkValidateLoop_none_bound req.items 0 hloop with h | h
      · rw [h] at hne
        simp at hne
      · omega

/-- Witness for C10: the singleton batch is accepted bound-wise, the empty
batch and a 1001-item batch are rejected with the table untouched and no
storage operation issued. -/
theorem bulkCreate_size_gate_witness :
    (bulkCreate ⟨[]⟩ [] (fun _ => none) = ([], [], .error .itemNameRequired)) ∧
    (∃ e, bulkCreate ⟨List.replicate 1001 ⟨"a", 1⟩⟩ [] (fun _ => none) =
      ([], [], .error e)) :=
  ⟨(bulkCreate_size_gate ⟨[]⟩ [] (fun _ => none)).1 rfl,
   (bulkCreate_size_gate ⟨List.replicate 1001 ⟨"a", 1⟩⟩ [] (fun _ => none)).2.1
     (by show 1000 < (List.replicate 1001 (⟨"a", 1⟩ : CreateItemRequest)).length
         rw [List.length_replicate]
         omega)⟩

/-- Inversion for CreateWithTx: a successful insert appends the item to the
table and returns it. -/
theorem createWithTx_ok (db : List Item) (it : Item) (fault : Option GoError)
    (db2 : List Item) (created : Item)
    (h : createWithTx db it fault = .ok (db2, created)) :
    db2 = db ++ [it] ∧ created = it := by
  cases fault with
  | some e => simp [createWithTx] at h
  | none =>
    by_cases hc : db.any (fun r => r.name == it.name)
    · simp [createWithTx, hc] at h
    · simp only [createWithTx, hc, Bool.false_eq_true, if_false] at h
      rw [Except.ok.injEq, Prod.mk.injEq] at h
      exact ⟨h.1.symm, h.2.symm⟩

/-- Inversion for the bulk insert loop: on overall success every insert
succeeded, the working table grew by exactly the inserted items in order, and
the accumulated results are the inserted items in order. -/
theorem bulkInsertLoop_ok (fault : Nat → Option GoError) :
    ∀ (items : List Item) (k : Nat) (db acc : List Item) (ops : List StorageOp)
      (db2 res : List Item),
      bulkInsertLoop fault items k db acc = (ops, .ok (db2, res)) →
      db2 = db ++ items ∧ res = acc ++ items := by
  intro items
  induction items with
  | nil =>
    intro k db acc ops db2 res h
    simp only [bulkInsertLoop, Prod.mk.injEq, Except.ok.injEq] at h
    obtain ⟨-, h2, h3⟩ := h
    refine ⟨?_, ?_⟩
    · rw [List.append_nil]
      exact h2.symm
    · rw [List.append_nil]
      exact h3.symm
  | cons it rest ih =>
    intro k db acc ops db2 res h
    simp only [bulkInsertLoop] at h
    cases hc : createWithTx db it (fault k) with
    | error e =>
      rw [hc] at h
      simp at h
    | ok pr =>
      obtain ⟨dbx, created⟩ := pr
      obtain ⟨hdbx, hcreated⟩ := createWithTx_ok db it (fault k) dbx created hc
      rw [hc] at h
      simp only [Prod.mk.injEq] at h
      obtain ⟨hops, hnext⟩ := h
      obtain ⟨ihdb, ihres⟩ := ih (k + 1) dbx (acc ++ [created]) _ db2 res (by
        rw [← hnext])
      subst hdbx hcreated
      constructor
      · rw [ihdb]
        simp
      · rw [ihres]
        simp

/-- Inversion for the transaction body of BulkCreate: on success the table
grew by exactly the batch, and the returned items are the batch in order. -/
theorem bulkTxBody_ok (items db : List Item) (fault : Nat → Option GoError)
    (ops : List StorageOp) (db2 res : List Item)
    (h : bulkTxBody items db fault = (ops, .ok (db2, res))) :
    db2 = db ++ items ∧ res = items := by
  unfold bulkTxBody at h
  cases hv : validateAll items with
  | some e =>
    rw [hv] at h
    simp at h
  | none =>
    rw [hv] at h
    cases hch : checkExternalDuplicatesLoop db (chunks1000 items) with
    | mk ops1 r =>
      cases r with
      | some e =>
        rw [hch] at h
        simp at h
      | none =>
        rw [hch] at h
        simp only [Prod.mk.injEq] at h
        obtain ⟨hops, hnext⟩ := h
        have := bulkInsertLoop_ok fault items 0 db [] _ db2 res (by
          rw [← hnext])
        simpa using this

/-- C2: BulkCreate is all-or-nothing: whenever it returns an error - request
validation, intra-batch duplicate, in-transaction validation, the batched
duplicate check, or any single insert failing - the table is unchanged (the
transaction rolled back, zero items persisted) and the error of the first
failing step is returned; on success the created items are exactly the input
batch in input order, appended to the table in that order. -/
theorem bulkCreate_all_or_nothing (req : BulkCreateRequest) (db : List Item)
    (fault : Nat → Option GoError) :
    (∀ db2 ops e, bulkCreate req db fault = (db2, ops, .error e) → db2 = db) ∧
    (∀ db2 ops res, bulkCreate req db fault = (db2, ops, .ok res) →
      res = req.toEntities ∧ db2 = db ++ req.toEntities) := by
  constructor
  · intro db2 ops e h
    cases hval : req.validate with
    | some e2 =>
      simp only [bulkCreate, hval, Prod.mk.injEq] at h
      exact h.1.symm
    | none =>
      simp only [bulkCreate, hval] at h
      by_cases hdup : findInternalDuplicate req.toEntities [] = true
      · simp only [hdup, if_true, Prod.mk.injEq] at h
        exact h.1.symm
      · simp only [Bool.not_eq_true] at hdup
        simp only [hdup, Bool.false_eq_true, if_false] at h
        cases htx : bulkTxBody req.toEntities db fault with
        | mk ops1 r =>
          cases r with
          | error e2 =>
            rw [htx] at h
            simp only [Prod.mk.injEq] at h
            exact h.1.symm
          | ok pr =>
            obtain ⟨dbx, results⟩ := pr
            rw [htx] at h
            simp at h
  · intro db2 ops res h
    cases hval : req.validate with
    | some e2 =>
      simp [bulkCreate, hval] at h
    | none =>
      simp only [bulkCreate, hval] at h
      by_cases hdup : findInternalDuplicate req.toEntities [] = true
      · simp [hdup] at h
      · simp only [Bool.not_eq_true] at hdup
        simp only [hdup, Bool.false_eq_true, if_false] at h
        cases htx : bulkTxBody req.toEntities db fault with
        | mk ops1 r =>
          cases r with
          | error e2 =>
            rw [htx] at h
            simp at h
          | ok pr =>
            obtain ⟨dbx, results⟩ := pr
            rw [htx] at h
            simp only [Prod.mk.injEq, Except.ok.injEq] at h
            obtain ⟨hdb, -, hres⟩ := h
            obtain ⟨h1, h2⟩ := bulkTxBody_ok req.toEntities db fault ops1 dbx results htx
            subst hdb
            rw [← hres]
            exact ⟨h2, h1⟩

/-- Witness for C2: a failing batch (insert fault injected at index 1) leaves
the table unchanged, and the same batch without faults is created in order. -/
theorem bulkCreate_all_or_nothing_witness :
    ((bulkCreate ⟨[⟨"a", 1⟩, ⟨"b", 2⟩]⟩ [] (fun k => if k = 1 then some (GoError.errMessage "disk full") else none)).1 = []) ∧
    ((bulkCreate ⟨[⟨"a", 1⟩, ⟨"b", 2⟩]⟩ [] (fun _ => none)).2.2 =
      .ok (BulkCreateRequest.toEntities ⟨[⟨"a", 1⟩, ⟨"b", 2⟩]⟩)) := by
  constructor
  · exact (bulkCreate_all_or_nothing ⟨[⟨"a", 1⟩, ⟨"b", 2⟩]⟩ []
      (fun k => if k = 1 then some (GoError.errMessage "disk full") else none)).1
      [] [StorageOp.queryNames ["a", "b"], StorageOp.insert "a", StorageOp.insert "b"]
      (GoError.errMessage "disk full") (by rfl)
  · have := (bulkCreate_all_or_nothing ⟨[⟨"a", 1⟩, ⟨"b", 2⟩]⟩ [] (fun _ => none)).2
      ((bulkCreate ⟨[⟨"a", 1⟩, ⟨"b", 2⟩]⟩ [] (fun _ => none)).1)
      ((bulkCreate ⟨[⟨"a", 1⟩, ⟨"b", 2⟩]⟩ [] (fun _ => none)).2.1)
      (BulkCreateRequest.toEntities ⟨[⟨"a", 1⟩, ⟨"b", 2⟩]⟩) (by rfl)
    rfl

/-- Dropping a matching run never increases the UTF-8 length. -/
theorem utf8Len_dropWhile_le (p : Char → Bool) (l : List Char) :
    utf8Len (l.dropWhile p) ≤ utf8Len l := by
  induction l with
  | nil => simp [List.dropWhile]
  | cons c cs ih =>
    by_cases h : p c
    · simp only [List.dropWhile, h]
      refine le_trans ih ?_
      simp only [utf8Len, List.map_cons, List.sum_cons]
      exact Nat.le_add_left _ _
    · simp [List.dropWhile, h]

/-- Reversal preserves the UTF-8 length. -/
theorem utf8Len_reverse (l : List Char) : utf8Len l.reverse = utf8Len l := by
  simp [utf8Len, List.map_reverse, List.sum_reverse]

/-- Trimming never increases the UTF-8 length. -/
theorem utf8Len_listTrim_le (l : List Char) : utf8Len (listTrim l) ≤ utf8Len l := by
  unfold listTrim
  calc utf8Len ((l.dropWhile goSpace).reverse.dropWhile goSpace).reverse
      = utf8Len ((l.dropWhile goSpace).reverse.dropWhile goSpace) := utf8Len_reverse _
    _ ≤ utf8Len (l.dropWhile goSpace).reverse := utf8Len_dropWhile_le _ _
    _ = utf8Len (l.dropWhile goSpace) := utf8Len_reverse _
    _ ≤ utf8Len l := utf8Len_dropWhile_le _ _

/-- The head of a dropWhile result never satisfies the predicate. -/
theorem dropWhile_head_not (p : Char → Bool) (l : List Char) :
    l.dropWhile p = [] ∨ ∃ c cs, l.dropWhile p = c :: cs ∧ p c = false := by
  induction l with
  | nil => exact Or.inl rfl
  | cons a as ih =>
    by_cases h : p a
    · simpa [List.dropWhile, h] using ih
    · refine Or.inr ⟨a, as, ?_, ?_⟩
      · simp [List.dropWhile, h]
      · simp [h]

/-- dropWhile fixes a list whose head fails the predicate. -/
theorem dropWhile_of_head_not (p : Char → Bool) (c : Char) (cs : List Char)
    (h : p c = false) : (c :: cs).dropWhile p = c :: cs := by
  simp [List.dropWhile, h]

/-- dropWhile keeps the trailing element when that element fails the
predicate. -/
theorem dropWhile_append_last_not (p : Char → Bool) (c : Char) (h : p c = false) :
    ∀ xs : List Char, ∃ ys, (xs ++ [c]).dropWhile p = ys ++ [c] := by
  intro xs
  induction xs with
  | nil => exact ⟨[], by simp [List.dropWhile, h]⟩
  | cons a as ih =>
    by_cases ha : p a
    · obtain ⟨ys, hys⟩ := ih
      refine ⟨ys, ?_⟩
      simpa [List.dropWhile, ha] using hys
    · exact ⟨a :: as, by simp [List.dropWhile, ha]⟩

/-- Trimming is idempotent. -/
theorem listTrim_idem (l : List Char) : listTrim (listTrim l) = listTrim l := by
  rcases dropWhile_head_not goSpace l with hm | ⟨c, cs, hm, hc⟩
  · unfold listTrim
    rw [hm]
    simp [List.dropWhile]
  · obtain ⟨ys, hys⟩ := dropWhile_append_last_not goSpace c hc cs.reverse
    have htriml : listTrim l = c :: ys.reverse := by
      unfold listTrim
      rw [hm, List.reverse_cons, hys, List.reverse_append]
      simp
    have hrform : (l.dropWhile goSpace).reverse.dropWhile goSpace = ys ++ [c] := by
      rw [hm, List.reverse_cons]
      exact hys
    have hyshead : ∀ d ds, ys = d :: ds → goSpace d = false := by
      intro d ds hdds
      rcases dropWhile_head_not goSpace (l.dropWhile goSpace).reverse with h0 | ⟨d2, ds2, h2, hd2⟩
      · rw [hrform, hdds] at h0
        cases h0
      · rw [hrform, hdds] at h2
        injection h2 with h3 h4
        rw [← h3] at hd2
        exact hd2
    have hAfix : (ys ++ [c]).dropWhile goSpace = ys ++ [c] := by
      cases hys2 : ys with
      | nil => simp [List.dropWhile, hc]
      | cons d ds =>
        have hd := hyshead d ds hys2
        simp only [List.cons_append]
        exact dropWhile_of_head_not goSpace d (ds ++ [c]) hd
    rw [htriml]
    unfold listTrim
    rw [dropWhile_of_head_not goSpace c ys.reverse hc, List.reverse_cons,
      List.reverse_reverse, hAfix, List.reverse_append]
    simp

/-- TrimSpace is idempotent at the string level. -/
theorem goTrimSpace_idem (s : String) : goTrimSpace (goTrimSpace s) = goTrimSpace s := by
  simp [goTrimSpace, listTrim_idem]

/-- Trimming never increases the Go byte length, at the string level. -/
theorem goLen_goTrimSpace_le (s : String) : goLen (goTrimSpace s) ≤ goLen s := by
  simpa [goLen, goTrimSpace] using utf8Len_listTrim_le s.data

/-- An accepted create request stays accepted by the entity validator after
trimming: ValidateItem never rejects the entity built from a request that
passed CreateItemRequest.Validate. -/
theorem createValidate_none_entity (r : CreateItemRequest) (h : r.validate = none) :
    validateItem r.toEntity = none := by
  by_cases h1 : goTrimSpace r.name = ""
  · simp [CreateItemRequest.validate, h1] at h
  · by_cases h2 : goLen r.name > 100
    · simp [CreateItemRequest.validate, h1, h2] at h
    · by_cases h3 : r.amount > 999999
      · simp [CreateItemRequest.validate, h1, h2, h3] at h
      · have e1 : goTrimSpace (goTrimSpace r.name) ≠ "" := by
          rw [goTrimSpace_idem]
          exact h1
        have e2 : ¬ goLen (goTrimSpace r.name) > 100 := by
          have := goLen_goTrimSpace_le r.name
          omega
        simp [validateItem, CreateItemRequest.toEntity, e1, e2, h3]

/-- Counterexample to C8 as stated: this request has a trimmed name of
exactly 100 characters (within the claimed 1..100 bound) and amount 0, yet
Create rejects it with the name-too-long error, because the length bound is
evaluated on the RAW name (101 bytes), not on the trimmed name. -/
theorem create_length_on_raw_counterexample :
    createRequestAccepted ⟨nameA100sp, 0⟩ = some .itemNameTooLong ∧
    goLen (goTrimSpace nameA100sp) = 100 ∧
    goLen nameA100sp = 101 := by
  refine ⟨?_, ?_, ?_⟩ <;> decide

/-- C8 amended: Create accepts a request if and only if the name is non-empty
after trimming, the RAW (untrimmed) name has at most 100 bytes, and the
amount is at most 999999; the boundaries 100/101 and 999999/1000000 behave as
claimed, but the length bound is evaluated on the raw name, not the trimmed
one. -/
theorem create_validation_boundaries_amended (name : String) (amount : Nat) :
    createRequestAccepted ⟨name, amount⟩ = none ↔
      (goTrimSpace name ≠ "" ∧ goLen name ≤ 100 ∧ amount ≤ 999999) := by
  constructor
  · intro h
    cases hv : CreateItemRequest.validate ⟨name, amount⟩ with
    | some e => simp [createRequestAccepted, hv] at h
    | none =>
      by_cases h1 : goTrimSpace name = ""
      · simp [CreateItemRequest.validate, h1] at hv
      · by_cases h2 : goLen name > 100
        · simp [CreateItemRequest.validate, h1, h2] at hv
        · by_cases h3 : amount > 999999
          · simp [CreateItemRequest.validate, h1, h2, h3] at hv
          · exact ⟨h1, by omega, by omega⟩
  · rintro ⟨h1, h2, h3⟩
    have hv : CreateItemRequest.validate ⟨name, amount⟩ = none := by
      simp only [CreateItemRequest.validate]
      rw [if_neg h1, if_neg (by omega), if_neg (by omega)]
    simp [createRequestAccepted, hv, createValidate_none_entity _ hv]

/-- Witness for C8 amended: the 100-byte name with the maximal amount is
accepted. -/
theorem create_validation_boundaries_amended_witness :
    createRequestAccepted ⟨nameA100, 999999⟩ = none :=
  (create_validation_boundaries_amended nameA100 999999).mpr
    ⟨by decide, by decide, by decide⟩

/-- Every element of a list lies in one of its chunks, for any fuel. -/
theorem chunksAux_cover : ∀ (fuel : Nat) (l : List Item) (x : Item), x ∈ l →
    ∃ c ∈ chunksAux fuel l, x ∈ c := by
  intro fuel
  induction fuel with
  | zero =>
    intro l x hx
    cases l with
    | nil => cases hx
    | cons a as => exact ⟨a :: as, by simp [chunksAux], hx⟩
  | succ f ih =>
    intro l x hx
    cases l with
    | nil => cases hx
    | cons a as =>
      have hx2 : x ∈ (a :: as).take 1000 ++ (a :: as).drop 1000 := by
        rw [List.take_append_drop]
        exact hx
      rcases List.mem_append.mp hx2 with h1 | h2
      · exact ⟨(a :: as).take 1000, by simp [chunksAux], h1⟩
      · obtain ⟨c, hc, hxc⟩ := ih ((a :: as).drop 1000) x h2
        refine ⟨c, ?_, hxc⟩
        simp only [chunksAux, List.mem_cons]
        exact Or.inr hc

/-- Every element of a list lies in one of its 1000-chunks. -/
theorem chunks1000_cover (l : List Item) (x : Item) (hx : x ∈ l) :
    ∃ c ∈ chunks1000 l, x ∈ c :=
  chunksAux_cover l.length l x hx

/-- The chunk loop returns either no error or the already-exists sentinel. -/
theorem checkExternalLoop_err (db : List Item) :
    ∀ cs, (checkExternalDuplicatesLoop db cs).2 = none ∨
      (checkExternalDuplicatesLoop db cs).2 = some .itemAlreadyExists := by
  intro cs
  induction cs with
  | nil => exact Or.inl rfl
  | cons c rest ih =>
    simp only [checkExternalDuplicatesLoop]
    by_cases h : (getByNamesWithTx db (c.map Item.name)).length > 0
    · rw [if_pos h]
      exact Or.inr rfl
    · rw [if_neg h]
      exact ih

/-- A chunk loop returning no error saw only empty query results. -/
theorem checkExternalLoop_none (db : List Item) :
    ∀ cs, (checkExternalDuplicatesLoop db cs).2 = none →
      ∀ c ∈ cs, (getByNamesWithTx db (c.map Item.name)).length = 0 := by
  intro cs
  induction cs with
  | nil =>
    intro h c hc
    cases hc
  | cons c0 rest ih =>
    intro h c hc
    simp only [checkExternalDuplicatesLoop] at h
    by_cases h0 : (getByNamesWithTx db (c0.map Item.name)).length > 0
    · rw [if_pos h0] at h
      cases h
    · rw [if_neg h0] at h
      rcases List.mem_cons.mp hc with rfl | hmem
      · omega
      · exact ih h c hmem

/-- If a live row shares a name with some batch candidate, the batched
duplicate check fails with the already-exists sentinel. -/
theorem checkExternal_finds (db items : List Item)
    (h : ∃ it ∈ db, ∃ cand ∈ items, it.name = cand.name) :
    (checkExternalDuplicatesLoop db (chunks1000 items)).2 = some .itemAlreadyExists := by
  obtain ⟨it, hit, cand, hcand, hname⟩ := h
  rcases checkExternalLoop_err db (chunks1000 items) with hnone | hsome
  · exfalso
    obtain ⟨c, hc, hxc⟩ := chunks1000_cover items cand hcand
    have hq := checkExternalLoop_none db _ hnone c hc
    have hnelem : (c.map Item.name).length ≠ 0 := by
      simp only [List.length_map, ne_eq, List.length_eq_zero]
      intro hcnil
      rw [hcnil] at hxc
      cases hxc
    have hmemmap : it.name ∈ c.map Item.name := by
      rw [hname]
      exact List.mem_map_of_mem _ hxc
    have hcontains : (c.map Item.name).contains it.name = true := by
      simpa [List.contains] using List.elem_iff.mpr hmemmap
    have hmemfil : it ∈ db.filter (fun r => (c.map Item.name).contains r.name) :=
      List.mem_filter.mpr ⟨hit, hcontains⟩
    rw [getByNamesWithTx, if_neg hnelem, List.length_eq_zero] at hq
    rw [hq] at hmemfil
    cases hmemfil
  · exact hsome

/-- Every item of a batch that passed BulkCreateRequest.Validate also passes
the in-transaction entity validation. -/
theorem validateAll_map_none (l : List CreateItemRequest)
    (h : ∀ a ∈ l, a.validate = none) :
    validateAll (l.map CreateItemRequest.toEntity) = none := by
  induction l with
  | nil => rfl
  | cons a rest ih =>
    simp only [List.map_cons, validateAll,
      createValidate_none_entity a (h a (by simp))]
    exact ih (fun b hb => h b (by simp [hb]))

/-- A batch that passed BulkCreateRequest.Validate passes the in-transaction
validator loop on its entities. -/
theorem validateAll_none_of_validate (req : BulkCreateRequest) (h : req.validate = none) :
    validateAll req.toEntities = none := by
  have hne : req.items.length ≠ 0 := by
    intro hc
    simp [BulkCreateRequest.validate, hc] at h
  have hloop : bulkValidateLoop 0 req.items = none := by
    simpa [BulkCreateRequest.validate, hne] using h
  exact validateAll_map_none req.items (bulkValidateLoop_none_valid req.items 0 hloop)

/-- Counterexample to C5 as stated: this batch contains both a repeated name
and a candidate violating a business rule, yet BulkCreate returns the
amount-too-large validation error, not AlreadyExists, because per-candidate
business validation (inside request validation) runs before the intra-batch
duplicate check. -/
theorem bulk_step_order_counterexample :
    bulkCreate c5Req [] (fun _ => none) = ([], [], .error .itemAmountTooLarge) ∧
    GoError.itemAmountTooLarge ≠ GoError.itemAlreadyExists := by
  refine ⟨by rfl, by decide⟩

/-- C5 amended: BulkCreate performs per-candidate business-rule validation
first (inside BulkCreateRequest.Validate, before touching storage), then the
intra-batch duplicate check (failing with AlreadyExists before touching
storage), then inside the transaction the entity re-validation (which can no
longer fail) followed by the batched storage duplicate check; consequently a
batch with both a repeated name and an invalid candidate fails with the first
candidate validation error, and AlreadyExists results once all candidates are
valid. -/
theorem bulk_step_order_amended (req : BulkCreateRequest) (db : List Item)
    (fault : Nat → Option GoError) :
    (∀ e, req.validate = some e → bulkCreate req db fault = (db, [], .error e)) ∧
    (req.validate = none → findInternalDuplicate req.toEntities [] = true →
      bulkCreate req db fault = (db, [], .error .itemAlreadyExists)) ∧
    (req.validate = none → findInternalDuplicate req.toEntities [] = false →
      (∃ it ∈ db, ∃ cand ∈ req.toEntities, it.name = cand.name) →
      ∃ ops, bulkCreate req db fault = (db, ops, .error .itemAlreadyExists)) := by
  refine ⟨?_, ?_, ?_⟩
  · intro e h
    simp [bulkCreate, h]
  · intro hval hdup
    simp [bulkCreate, hval, hdup]
  · intro hval hdup hover
    have hva : validateAll req.toEntities = none := validateAll_none_of_validate req hval
    have hch := checkExternal_finds db req.toEntities hover
    refine ⟨(checkExternalDuplicatesLoop db (chunks1000 req.toEntities)).1, ?_⟩
    have htx : bulkTxBody req.toEntities db fault =
        ((checkExternalDuplicatesLoop db (chunks1000 req.toEntities)).1,
          .error .itemAlreadyExists) := by
      unfold bulkTxBody
      rw [hva]
      cases hc : checkExternalDuplicatesLoop db (chunks1000 req.toEntities) with
      | mk ops r =>
        rw [hc] at hch
        simp only at hch
        rw [hch]
    simp [bulkCreate, hval, hdup, htx]

/-- Witness for C5 amended: one valid candidate whose name already exists in
the table fails with AlreadyExists. -/
theorem bulk_step_order_amended_witness :
    ∃ ops, bulkCreate ⟨[⟨"a", 1⟩]⟩ [⟨"1", "a", 2⟩] (fun _ => none) =
      ([⟨"1", "a", 2⟩], ops, .error .itemAlreadyExists) :=
  (bulk_step_order_amended ⟨[⟨"a", 1⟩]⟩ [⟨"1", "a", 2⟩] (fun _ => none)).2.2
    (by decide) (by decide) (by decide)

/-- Counterexample to C3 as stated: a storage failure from the locking read
(here a connection error) does NOT propagate out of the check step - the
check function returns nil, the insert proceeds and the whole Create succeeds
- whereas the claim requires any storage failure other than AlreadyExists to
propagate unchanged and trigger rollback. -/
theorem create_check_swallows_counterexample :
    ucCreateFlow ⟨"a", 1⟩ [] (.error (.errMessage "connection refused")) none =
      ([⟨"", "a", 1⟩], .ok ⟨"", "a", 1⟩) ∧
    (∀ e, (Except.ok (⟨"", "a", 1⟩ : Item) : Except GoError Item) ≠ .error e) := by
  refine ⟨by rfl, ?_⟩
  intro e hcon
  exact Except.noConfusion hcon

/-- C3 amended: the reads in Get and Delete map every storage error to the
domain not-found error, and an insert failure inside AtomicCreate propagates
(through MapDatabaseError) and rolls the transaction back; but the locking
read of the check step is the exception to the propagation policy: EVERY
error it returns, including genuine storage failures, is treated as no
existing item and the insert proceeds. -/
theorem storage_error_policy_amended (req : CreateItemRequest) (db : List Item)
    (fault : Option GoError) (lockedRead readResult : Except GoError Item)
    (id : String) :
    (∀ e, createCheckFn (.error e) = none) ∧
    (req.validate = none → validateItem req.toEntity = none →
      createCheckFn lockedRead = none →
      ∀ e2, createWithTx db req.toEntity fault = .error e2 →
        ucCreateFlow req db lockedRead fault = (db, .error e2)) ∧
    (id ≠ "" → ∀ e3, readResult = .error e3 →
      ucGet id readResult = .error .itemNotFound ∧
      ucDelete id readResult db = (db, some .itemNotFound)) := by
  refine ⟨?_, ?_, ?_⟩
  · intro e
    rfl
  · intro h1 h2 h3 e2 h4
    simp [ucCreateFlow, h1, h2, h3, h4]
  · intro hid e3 hread
    subst hread
    constructor
    · simp [ucGet, hid]
    · simp [ucDelete, hid]

/-- Witness for C3 amended: an injected insert fault propagates mapped and
rolls back, and a read timeout in Get and Delete becomes NotFound. -/
theorem storage_error_policy_amended_witness :
    ucCreateFlow ⟨"a", 1⟩ [] (.error .recordNotFound) (some (GoError.errMessage "disk full")) =
      ([], .error (GoError.errMessage "disk full")) ∧
    (ucGet "x" (.error (GoError.errMessage "timeout")) = .error .itemNotFound ∧
     ucDelete "x" (.error (GoError.errMessage "timeout")) [] = ([], some .itemNotFound)) :=
  ⟨(storage_error_policy_amended ⟨"a", 1⟩ [] (some (GoError.errMessage "disk full"))
      (.error .recordNotFound) (.error (GoError.errMessage "timeout")) "x").2.1
      (by decide) (by decide) (by rfl) (GoError.errMessage "disk full") (by rfl),
   (storage_error_policy_amended ⟨"a", 1⟩ [] (some (GoError.errMessage "disk full"))
      (.error .recordNotFound) (.error (GoError.errMessage "timeout")) "x").2.2
      (by decide) (GoError.errMessage "timeout") rfl⟩
